import Mathlib

/-!
Verification development for the real-time object detection client
(client-triton). The Rust sources are shallowly embedded: machine floats
(f32) are modelled by exact rationals, usize counters by Nat, byte buffers
by lists, and the per-source mutable statistics by explicit state records.
Each claim from the specification is stated and settled against these
embeddings.
-/

/-- Precision of a tensor element: inference.rs, enum InferencePrecision
(FP16 or FP32). -/
inductive InferencePrecision where
  | FP16
  | FP32
deriving DecidableEq

/-- Byte width of one element for a precision, as matched throughout the
sources (2 for FP16, 4 for FP32). -/
def precision_bytes : InferencePrecision → Nat
  | InferencePrecision.FP16 => 2
  | InferencePrecision.FP32 => 4

/-! ## Bounded frame queue: inference/queue.rs -/

/-- Body of FixedSizeQueueSender.send_sync (queue.rs lines 58 to 72) once
the try_lock succeeded: if the length has reached capacity the front
(oldest) element is popped and handed to the drop callback, then the new
item is pushed at the back. Returns the new queue contents and the item
passed to the drop callback, if any. -/
def send_sync_locked (capacity : Nat) (q : List α) (item : α) :
    List α × Option α :=
  if capacity ≤ q.length then
    match q with
    | [] => ([item], none)
    | dropped :: rest => (rest ++ [item], some dropped)
  else
    (q ++ [item], none)

/-- FixedSizeQueueSender.send_sync (queue.rs lines 56 to 76): the try_lock
outcome is a parameter. On contention the function bails with the error
string and the queue is untouched; the Bool records Ok versus Err. -/
def send_sync (lock_free : Bool) (capacity : Nat) (q : List α) (item : α) :
    (List α × Option α) × Bool :=
  if lock_free then (send_sync_locked capacity q item, true)
  else ((q, none), false)

/-- One operation on the queue: a producer send_sync call that obtained the
lock, or a consumer FixedSizeQueueReceiver.recv. -/
inductive QueueOp (α : Type) where
  | send (a : α)
  | recv

/-- Sequential simulation state for the queue together with the statistics
touched by its drop callback: the callback registered in
SourceProcessor.new (source.rs lines 173 to 177) increments frames_failed
for every dropped frame. The received list records the values returned by
recv in order. -/
structure QueueSim (α : Type) where
  queue : List α
  received : List α
  frames_failed : Nat

/-- Effect of one queue operation: send_sync through send_sync_locked (the
drop callback counting the dropped item as a failed frame), recv popping
the front when available (queue.rs lines 102 to 114; an empty queue makes
recv wait, modelled as no state change). -/
def queue_step (capacity : Nat) (s : QueueSim α) : QueueOp α → QueueSim α
  | QueueOp.send a =>
      let r := send_sync_locked capacity s.queue a
      { s with
        queue := r.1,
        frames_failed := s.frames_failed + (if r.2.isSome then 1 else 0) }
  | QueueOp.recv =>
      match s.queue with
      | [] => s
      | x :: rest => { s with queue := rest, received := s.received ++ [x] }

/-- Runs a sequence of queue operations from the empty queue. -/
def queue_run (capacity : Nat) (ops : List (QueueOp α)) : QueueSim α :=
  ops.foldl (queue_step capacity) ⟨[], [], 0⟩

/-- Values offered to the queue by the send operations of a trace, in
order. -/
def sent_items : List (QueueOp α) → List α :=
  List.filterMap fun op =>
    match op with
    | QueueOp.send a => some a
    | QueueOp.recv => none

/-! ## Source processor ingestion: inference/source.rs -/

/-- State of one SourceProcessor as far as frame ingestion is concerned:
the frames_total and frames_failed counters of SourceStats and the
contents of its bounded frame queue (frames identified by their pts). -/
structure ProcessorState where
  frames_total : Nat
  frames_failed : Nat
  queue : List Nat
deriving DecidableEq, Repr

/-- Initial processor state: all counters zero, queue empty
(SourceStats.new, source.rs lines 94 to 107). -/
def initial_state : ProcessorState :=
  { frames_total := 0, frames_failed := 0, queue := [] }

/-- SourceProcessor.process_frame (source.rs lines 298 to 325): loads
frames_total; if (frames_total + 1) mod inf_frame is zero the frame is
sent with send_sync (whose drop callback increments frames_failed), and a
send error makes the caller increment frames_failed itself; otherwise the
frame is skipped and frames_total is incremented. The Bool result records
whether the frame was enqueued. -/
def process_frame (stride capacity : Nat) (lock_free : Bool)
    (st : ProcessorState) (pts : Nat) : ProcessorState × Bool :=
  if (st.frames_total + 1) % stride = 0 then
    let r := send_sync lock_free capacity st.queue pts
    if r.2 then
      ({ st with
          queue := r.1.1,
          frames_failed :=
            st.frames_failed + (if r.1.2.isSome then 1 else 0) }, true)
    else
      ({ st with frames_failed := st.frames_failed + 1 }, false)
  else
    ({ st with frames_total := st.frames_total + 1 }, false)

/-- Completion of the detached worker task for one queued frame
(source.rs lines 201 to 234): the frame is pulled from the queue front and
frames_total is incremented once processing finishes (line 212; the
success path). -/
def worker_complete (st : ProcessorState) : ProcessorState :=
  match st.queue with
  | [] => st
  | _ :: rest => { st with queue := rest, frames_total := st.frames_total + 1 }

/-- One decoder callback under the sequential interleaving in which the
worker finishes each admitted frame before the next callback arrives:
process_frame with the lock obtainable, followed by the worker completion
when the frame was enqueued. -/
def submit_frame (stride capacity : Nat) (st : ProcessorState) (pts : Nat) :
    ProcessorState × Bool :=
  let r := process_frame stride capacity true st pts
  (if r.2 then worker_complete r.1 else r.1, r.2)

/-- Runs submit_frame over a list of frames, collecting the admission
flags in order. -/
def run_frames (stride capacity : Nat) (st : ProcessorState) :
    List Nat → ProcessorState × List Bool
  | [] => (st, [])
  | pts :: rest =>
      let r := submit_frame stride capacity st pts
      let t := run_frames stride capacity r.1 rest
      (t.1, r.2 :: t.2)

/-! ## Configuration loading: utils/config.rs -/

/-- Per-source inf_frame selection in AppConfig.new (config.rs lines 159
to 163): an override from SOURCE_INF_FRAMES is kept when it passes the
filter x less-or-equal 30, otherwise the unvalidated
SOURCE_INF_FRAME_DEFAULT is used. -/
def source_inf_frame (override_val : Option Nat) (inf_frame_default : Nat) :
    Nat :=
  match override_val with
  | some x => if x ≤ 30 then x else inf_frame_default
  | none => inf_frame_default

/-! ## Letterbox geometry: processing/yolo.rs -/

/-- Truncating cast of a nonnegative rational to usize, modelling the Rust
expression (expr as usize) on a nonnegative f32 value. -/
def rat_to_usize (q : ℚ) : Nat :=
  (⌊q⌋).toNat

/-- LetterboxParams (yolo.rs lines 16 to 24). pad_x and pad_y are stored
by the source as f32 values of integers; they are kept here as Nat and
cast where rational arithmetic needs them. -/
structure LetterboxParams where
  pad_x : Nat
  pad_y : Nat
  new_width : Nat
  new_height : Nat
  scale : ℚ
  inv_scale : ℚ
deriving DecidableEq

/-- calculate_letterbox (yolo.rs lines 30 to 50), with f32 arithmetic
modelled by exact rationals. -/
def calculate_letterbox (height width target_size : Nat) : LetterboxParams :=
  let max_dim : ℚ := (max height width : Nat)
  let scale : ℚ := (target_size : ℚ) / max_dim
  let inv_scale : ℚ := max_dim / (target_size : ℚ)
  let new_width := min (rat_to_usize ((width : ℚ) * scale)) target_size
  let new_height := min (rat_to_usize ((height : ℚ) * scale)) target_size
  { pad_x := (target_size - new_width) / 2,
    pad_y := (target_size - new_height) / 2,
    new_width := new_width,
    new_height := new_height,
    scale := scale,
    inv_scale := inv_scale }

/-- Inverse letterbox transform applied by postprocess (yolo.rs lines 186
to 193) to one anchor given in center form (x, y, w, h): the four corner
coordinates in original-image space. -/
def invert_letterbox_bbox (lb : LetterboxParams) (x y w h : ℚ) :
    ℚ × ℚ × ℚ × ℚ :=
  ((x - w / 2 - (lb.pad_x : ℚ)) * lb.inv_scale,
   (y - h / 2 - (lb.pad_y : ℚ)) * lb.inv_scale,
   (x + w / 2 - (lb.pad_x : ℚ)) * lb.inv_scale,
   (y + h / 2 - (lb.pad_y : ℚ)) * lb.inv_scale)

/-- Modelled from the spec (section 4.1.1): the forward letterbox map on an
x coordinate, placing an original-image coordinate into the 640 by 640
letterboxed frame. The source computes this map only implicitly (the
pre-processing resamples by the inverse map), so the forward map is taken
from the specification text for the round-trip claim. -/
def letterbox_forward_x (lb : LetterboxParams) (c : ℚ) : ℚ :=
  c * lb.scale + (lb.pad_x : ℚ)

/-- Modelled from the spec (section 4.1.1): the forward letterbox map on a
y coordinate. -/
def letterbox_forward_y (lb : LetterboxParams) (c : ℚ) : ℚ :=
  c * lb.scale + (lb.pad_y : ℚ)

/-! ## YOLO preprocessing: processing/yolo.rs -/

/-- Target square size of the YOLO input (yolo.rs, TARGET_SIZE). -/
def TARGET_SIZE : Nat := 640

/-- Pixels of one output plane (yolo.rs, TARGET_PIXELS). -/
def TARGET_PIXELS : Nat := TARGET_SIZE * TARGET_SIZE

/-- A raw RGB frame: interleaved RGB8 bytes with its dimensions
(processing module, struct RawFrame; the timing field is irrelevant
here). -/
structure RawFrame where
  data : List Nat
  height : Nat
  width : Nat

/-- Normalization lookup table value for a byte: the tables F16_LUT and
F32_LUT both hold the normalized value v over 255 (the FP16 table holds
its binary16 rounding; both are modelled by the exact rational). -/
def norm_lut (v : Nat) : ℚ :=
  (v : ℚ) / 255

/-- Per-row source offset (yolo.rs line 324): the source row picked by
nearest-neighbor sampling, clamped to height minus 1, times width times
3. -/
def y_src_offset (fr : RawFrame) (lb : LetterboxParams) (y : Nat) : Nat :=
  min (rat_to_usize ((y : ℚ) * lb.inv_scale)) (fr.height - 1) * fr.width * 3

/-- Per-row destination offset (yolo.rs line 325). -/
def y_dst_offset (lb : LetterboxParams) (y : Nat) : Nat :=
  (y + lb.pad_y) * TARGET_SIZE + lb.pad_x

/-- Per-column source offset (yolo.rs line 330). -/
def x_src_offset (fr : RawFrame) (lb : LetterboxParams) (x : Nat) : Nat :=
  min (rat_to_usize ((x : ℚ) * lb.inv_scale)) (fr.width - 1) * 3

/-- One iteration of the inner pixel loop of preprocess_scalar (yolo.rs
lines 375 to 389): reads the source r g b bytes and writes their
normalized values into the three planes at dst, dst + TARGET_PIXELS and
dst + 2 * TARGET_PIXELS. -/
def write_pixel (fr : RawFrame) (lb : LetterboxParams) (y x : Nat)
    (buf : List ℚ) : List ℚ :=
  let src := y_src_offset fr lb y + x_src_offset fr lb x
  let dst := y_dst_offset lb y + x
  let r := fr.data.getD src 0
  let g := fr.data.getD (src + 1) 0
  let b := fr.data.getD (src + 2) 0
  ((buf.set dst (norm_lut r)).set (dst + TARGET_PIXELS) (norm_lut g)).set
    (dst + 2 * TARGET_PIXELS) (norm_lut b)

/-- preprocess_scalar (yolo.rs lines 351 to 435): the output is allocated
as three planes of TARGET_PIXELS elements all holding the normalized pad
value for byte 114, then the active region is filled row by row. Both
precision branches write the same normalized values in this rational
model; the precision only changes the byte width of an element. -/
def preprocess_scalar (fr : RawFrame) : List ℚ :=
  let lb := calculate_letterbox fr.height fr.width TARGET_SIZE
  (List.range lb.new_height).foldl
    (fun buf y =>
      (List.range lb.new_width).foldl
        (fun b x => write_pixel fr lb y x b) buf)
    (List.replicate (TARGET_PIXELS * 3) (norm_lut 114))

/-- preprocess (yolo.rs lines 295 to 348): bails when the data length does
not equal height times width times 3, otherwise runs the scalar
implementation (the AVX2 branch computes the same output). -/
def preprocess (fr : RawFrame) (_precision : InferencePrecision) :
    Except String (List ℚ) :=
  if fr.data.length = fr.height * fr.width * 3 then
    Except.ok (preprocess_scalar fr)
  else
    Except.error "Got unexpected size of frame input"

/-- Position idx of the output tensor lies in the active letterboxed
region: its in-plane row and column fall inside the resampled image,
outside the padding. -/
def inside_active (lb : LetterboxParams) (idx : Nat) : Prop :=
  lb.pad_y ≤ idx % TARGET_PIXELS / TARGET_SIZE ∧
  idx % TARGET_PIXELS / TARGET_SIZE < lb.pad_y + lb.new_height ∧
  lb.pad_x ≤ idx % TARGET_PIXELS % TARGET_SIZE ∧
  idx % TARGET_PIXELS % TARGET_SIZE < lb.pad_x + lb.new_width

instance (lb : LetterboxParams) (idx : Nat) : Decidable (inside_active lb idx) := by
  unfold inside_active
  infer_instance

/-! ## Detections and class-aware NMS: processing/yolo.rs -/

/-- ResultBBOX (processing module): a detection box with corners in
original-image space, its class id and its confidence. The source stores
the corners as a four-element f32 array; they are named fields here. -/
structure ResultBBOX where
  x1 : ℚ
  y1 : ℚ
  x2 : ℚ
  y2 : ℚ
  score : ℚ
  cls : Nat
deriving DecidableEq

/-- Intersection over union of two boxes as computed inline by bbox_nms
(yolo.rs lines 81 to 97): zero when the boxes do not strictly overlap. -/
def iou (a b : ResultBBOX) : ℚ :=
  let x1m := max a.x1 b.x1
  let y1m := max a.y1 b.y1
  let x2m := min a.x2 b.x2
  let y2m := min a.y2 b.y2
  if x1m < x2m ∧ y1m < y2m then
    let inter := (x2m - x1m) * (y2m - y1m)
    let area_a := (a.x2 - a.x1) * (a.y2 - a.y1)
    let area_b := (b.x2 - b.x1) * (b.y2 - b.y1)
    inter / (area_a + area_b - inter)
  else 0

/-- Inner check of bbox_nms (yolo.rs lines 72 to 98) deciding whether an
already kept detection suppresses the current candidate: same class,
strict overlap, and intersection exceeding the threshold times the
union. -/
def suppresses (thr : ℚ) (kept cand : ResultBBOX) : Bool :=
  if kept.cls ≠ cand.cls then false
  else
    let x1m := max cand.x1 kept.x1
    let y1m := max cand.y1 kept.y1
    let x2m := min cand.x2 kept.x2
    let y2m := min cand.y2 kept.y2
    if x1m < x2m ∧ y1m < y2m then
      let inter := (x2m - x1m) * (y2m - y1m)
      let area_i := (cand.x2 - cand.x1) * (cand.y2 - cand.y1)
      let area_j := (kept.x2 - kept.x1) * (kept.y2 - kept.y1)
      decide (inter > thr * (area_i + area_j - inter))
    else false

/-- Main loop of bbox_nms (yolo.rs lines 65 to 108): each candidate in
sorted order is kept exactly when no already kept detection suppresses
it; kept detections are compacted in order. -/
def nms_keep (thr : ℚ) (kept : List ResultBBOX) :
    List ResultBBOX → List ResultBBOX
  | [] => kept
  | cand :: rest =>
      if kept.any (fun k => suppresses thr k cand) then
        nms_keep thr kept rest
      else
        nms_keep thr (kept ++ [cand]) rest

/-- Sort of bbox_nms (yolo.rs lines 61 to 63): descending by score. The
source sort is unstable; a stable merge sort is one admissible outcome of
it. -/
def sort_detections (dets : List ResultBBOX) : List ResultBBOX :=
  dets.mergeSort fun a b => decide (b.score ≤ a.score)

/-- bbox_nms (yolo.rs lines 54 to 109): lists of length at most one are
returned unchanged; otherwise the detections are sorted by score
descending and filtered by nms_keep. -/
def bbox_nms (thr : ℚ) (dets : List ResultBBOX) : List ResultBBOX :=
  if dets.length ≤ 1 then dets
  else nms_keep thr [] (sort_detections dets)

/-! ## Per-frame result population: processing/yolo.rs, processing/dinov2.rs -/

/-- Outcome of the populate-results stage of yolo.rs process_frame: the
detections computed by post-processing and the payloads handed to the
publisher. -/
structure FrameOutcome where
  detections : List ResultBBOX
  published : List (List ResultBBOX)

/-- Populate-results stage of process_frame (yolo.rs lines 676 to 679):
the call to SourceProcessor.populate_bboxes is commented out in the
source, so no payload is handed to the publisher regardless of the
detections. -/
def yolo_populate_results (bboxes : List ResultBBOX) : FrameOutcome :=
  { detections := bboxes, published := [] }

/-- Populate-results stage of process_frame (dinov2.rs lines 455 to 458):
the call to SourceProcessor.populate_embedding is likewise commented out;
the embedding (a rational vector here) is dropped. The result pairs the
embedding with the payloads handed to the publisher. -/
def dinov2_populate_results (embedding : List ℚ) :
    List ℚ × List (List ℚ) :=
  (embedding, [])

/-! ## Batched inference: inference.rs -/

/-- Relevant fields of ModelConfig (utils/config.rs lines 40 to 50) for
InferenceModel.infer. -/
structure ModelConfig where
  input_shape : List Int
  output_shape : List Int
  batch_max_size : Nat
  precision : InferencePrecision

/-- Output byte size of one sample (inference.rs lines 308 to 314):
product of the output shape dimensions times the element width. -/
def output_size_per_sample (mc : ModelConfig) : Nat :=
  (mc.output_shape.map Int.toNat).prod * precision_bytes mc.precision

/-- Consecutive chunks of size at most k of a list, as produced by the
Rust slice chunks iterator (inference.rs line 322). The k equal zero case
never occurs (Rust panics there); it returns the empty list here. -/
def list_chunks (k : Nat) : List α → List (List α)
  | [] => []
  | a :: rest =>
      if _h : k = 0 then []
      else (a :: rest).take k :: list_chunks k ((a :: rest).drop k)
termination_by l => l.length
decreasing_by
  simp only [List.length_drop, List.length_cons]
  omega

/-- Chunk number i of the inputs (empty when i is out of range). -/
def chunk_at (k : Nat) (l : List α) (i : Nat) : List α :=
  (list_chunks k l).getD i []

/-- A Triton inference request as filled by infer (inference.rs lines 335
to 337): the input tensor shape with the batch dimension inserted at the
front, and the concatenated raw input bytes. -/
structure InferRequest where
  shape : List Int
  raw_input : List Nat
deriving DecidableEq

/-- Request built for one chunk (inference.rs lines 329 to 337): clone of
the base request, shape prefixed with the chunk length, inputs
concatenated. -/
def chunk_request (mc : ModelConfig) (chunk : List (List Nat)) :
    InferRequest :=
  { shape := (chunk.length : Int) :: mc.input_shape,
    raw_input := chunk.flatten }

/-- Slicing of one contiguous response blob into per-sample outputs
(inference.rs lines 352 to 366): batch_size slices of output_size bytes at
consecutive offsets. -/
def chunk_slices (mc : ModelConfig) (blob : List Nat) (batch_size : Nat) :
    List (List Nat) :=
  (List.range batch_size).map fun i =>
    (blob.drop (i * output_size_per_sample mc)).take
      (output_size_per_sample mc)

/-- The batch tasks spawned by infer (inference.rs lines 321 to 373): for
chunk index ci, the start index ci times batch_max_size paired with the
per-sample slices of the response the transport returns for that chunk
request. The transport is a parameter net from chunk index and request to
response blob. -/
def infer_batches (mc : ModelConfig) (net : Nat → InferRequest → List Nat)
    (inputs : List (List Nat)) : List (Nat × List (List Nat)) :=
  (List.range (list_chunks mc.batch_max_size inputs).length).map fun ci =>
    let chunk := chunk_at mc.batch_max_size inputs ci
    (ci * mc.batch_max_size,
     chunk_slices mc (net ci (chunk_request mc chunk)) chunk.length)

/-- Placement of one completed batch (inference.rs lines 380 to 385): the
slots start_idx up to start_idx plus the batch length receive the batch
outputs; other slots keep their previous content. The result buffer is a
function from slot index to output bytes. -/
def write_batch (acc : Nat → List Nat) (p : Nat × List (List Nat)) :
    Nat → List Nat :=
  fun j => if p.1 ≤ j ∧ j < p.1 + p.2.length then p.2.getD (j - p.1) [] else acc j

/-- Folding all completed batches, in the order they completed, over the
pre-allocated result buffer of empty vectors (inference.rs lines 317 to
318 and 376 to 385). -/
def place_results (batches : List (Nat × List (List Nat))) : Nat → List Nat :=
  batches.foldl write_batch fun _ => []

/-- The final result vector of infer: one slot per input, read off the
placement buffer after all batches completed in the given order. -/
def infer_out (inputs : List (List Nat))
    (order : List (Nat × List (List Nat))) : List (List Nat) :=
  (List.range inputs.length).map (place_results order)

/-- A concrete model configuration used to exercise the batched inference
model on a concrete input: two outputs of FP32, batches of at most 2. -/
def witness_model_config : ModelConfig :=
  { input_shape := [3, 640, 640], output_shape := [2],
    batch_max_size := 2, precision := InferencePrecision.FP32 }

/-- A concrete transport returning a fixed response blob. -/
def witness_net : Nat → InferRequest → List Nat :=
  fun _ _ => List.replicate 16 0

/-- Three concrete inputs. -/
def witness_inputs : List (List Nat) := [[1], [2], [3]]

/-! # Claims -/

/-- C9: the specification claims every loaded SourceConfig has inf_frame
between 1 and 30, making the modulus in process_frame nonzero. The code
violates this: the override filter in config.rs lines 159 to 163 only
checks the upper bound, so an override of 0 is accepted (and the default
is not range-checked at all), yielding inf_frame = 0 and a
division-by-zero panic in process_frame. This theorem evaluates the
configuration code at the failing inputs. -/
theorem C9_inf_frame_zero_accepted :
    source_inf_frame (some 0) 1 = 0 ∧
    ¬ 1 ≤ source_inf_frame (some 0) 1 ∧
    source_inf_frame none 0 = 0 ∧
    source_inf_frame none 100 = 100 := by
  refine ⟨rfl, ?_, rfl, rfl⟩
  decide

/-- C7: the specification claims a non-empty per-frame result is handed to
the publisher before the processing task completes. The code violates
this: the populate calls in yolo.rs line 678 and dinov2.rs line 457 are
commented out, so a successfully processed frame with a non-empty result
publishes nothing. This theorem evaluates the populate-results stage at a
non-empty detection list and a non-empty embedding. -/
theorem C7_results_not_published :
    (yolo_populate_results
        [{ x1 := 0, y1 := 0, x2 := 10, y2 := 10, score := 9 / 10,
           cls := 0 }]).detections ≠ [] ∧
    (yolo_populate_results
        [{ x1 := 0, y1 := 0, x2 := 10, y2 := 10, score := 9 / 10,
           cls := 0 }]).published = [] ∧
    (dinov2_populate_results [1, 2, 3]).1 ≠ [] ∧
    (dinov2_populate_results [1, 2, 3]).2 = [] := by
  refine ⟨?_, rfl, ?_, rfl⟩
  · simp [yolo_populate_results]
  · simp [dinov2_populate_results]

/-- C8 counterexample: the claim states that a frame with height 0 or
width 0 makes preprocess return the InvalidShape error. On the frame of
height 0, width 1 and empty data the length check passes (0 equals 0
times 1 times 3), the resampling loops are empty, and preprocess
succeeds. -/
theorem C8_zero_height_succeeds :
    (preprocess { data := [], height := 0, width := 1 }
        InferencePrecision.FP32).isOk = true := by
  rfl

/-- C8 amended: for every frame with height 0 or width 0 whose data length
matches height times width times 3 (hence empty data), preprocess
succeeds and returns the scalar output (no InvalidShape error, no panic);
the error is produced only when the data length check fails. -/
theorem C8_zero_dim_preprocess (fr : RawFrame) (prec : InferencePrecision)
    (hzero : fr.height = 0 ∨ fr.width = 0)
    (hlen : fr.data.length = fr.height * fr.width * 3) :
    preprocess fr prec = Except.ok (preprocess_scalar fr) ∧
    (∀ fr2 : RawFrame, ∀ prec2 : InferencePrecision,
      fr2.data.length ≠ fr2.height * fr2.width * 3 →
      preprocess fr2 prec2 =
        Except.error "Got unexpected size of frame input") := by
  constructor
  · simp [preprocess, hlen]
  · intro fr2 prec2 h2
    simp only [preprocess, if_neg h2]

/-- C8 amended, witness at the concrete zero-height frame. -/
theorem C8_zero_dim_preprocess_witness :
    ((List.length ([] : List Nat) = 0 * 1 * 3) ∧
      preprocess { data := [], height := 0, width := 1 }
          InferencePrecision.FP16 =
        Except.ok (preprocess_scalar { data := [], height := 0, width := 1 }) ∧
      (∀ fr2 : RawFrame, ∀ prec2 : InferencePrecision,
        fr2.data.length ≠ fr2.height * fr2.width * 3 →
        preprocess fr2 prec2 =
          Except.error "Got unexpected size of frame input")) := by
  have h := C8_zero_dim_preprocess { data := [], height := 0, width := 1 }
    InferencePrecision.FP16 (Or.inl rfl) (by decide)
  exact ⟨by decide, h.1, h.2⟩

/-! ## Queue lemmas -/

/-- The queue contents after a locked send: the tail when at capacity,
otherwise the whole queue, with the new item appended. -/
theorem send_sync_locked_queue (capacity : Nat) (q : List α) (a : α) :
    (send_sync_locked capacity q a).1
      = (if capacity ≤ q.length then q.tail else q) ++ [a] := by
  cases q with
  | nil => simp [send_sync_locked]
  | cons x t =>
      simp only [send_sync_locked]
      split <;> simp

/-- The item passed to the drop callback by a locked send: the front of
the queue when at capacity, otherwise nothing. -/
theorem send_sync_locked_dropped (capacity : Nat) (q : List α) (a : α) :
    (send_sync_locked capacity q a).2
      = if capacity ≤ q.length then q.head? else none := by
  cases q with
  | nil => simp [send_sync_locked]
  | cons x t =>
      simp only [send_sync_locked]
      split <;> simp

theorem queue_step_send_queue (capacity : Nat) (s : QueueSim α) (a : α) :
    (queue_step capacity s (QueueOp.send a)).queue
      = (if capacity ≤ s.queue.length then s.queue.tail else s.queue) ++ [a] := by
  simp [queue_step, send_sync_locked_queue]

theorem queue_step_send_received (capacity : Nat) (s : QueueSim α) (a : α) :
    (queue_step capacity s (QueueOp.send a)).received = s.received := by
  simp [queue_step]

/-- Capacity bound invariant of the queue under any operation sequence. -/
theorem queue_fold_length_le (capacity : Nat) (hcap : 1 ≤ capacity)
    (ops : List (QueueOp α)) :
    ∀ s : QueueSim α, s.queue.length ≤ capacity →
      ((ops.foldl (queue_step capacity) s)).queue.length ≤ capacity := by
  induction ops with
  | nil => intro s h; exact h
  | cons op rest ih =>
      intro s h
      rw [List.foldl_cons]
      apply ih
      cases op with
      | send a =>
          rw [queue_step_send_queue]
          split
          · simp only [List.length_append, List.length_tail,
              List.length_cons, List.length_nil]
            omega
          · simp only [List.length_append, List.length_cons,
              List.length_nil]
            omega
      | recv =>
          obtain ⟨qs, rec, f⟩ := s
          cases qs with
          | nil => exact h
          | cons x t =>
              simp only [queue_step]
              simp only [List.length_cons] at h
              omega

theorem sent_items_send (a : α) (ops : List (QueueOp α)) :
    sent_items (QueueOp.send a :: ops) = a :: sent_items ops := by
  simp [sent_items]

theorem sent_items_recv (ops : List (QueueOp α)) :
    sent_items (QueueOp.recv :: ops) = sent_items ops := by
  simp [sent_items]

/-- FIFO invariant: the received prefix followed by the current queue is
always an order-preserving selection of the items sent so far. -/
theorem queue_fold_fifo (capacity : Nat) (ops : List (QueueOp α)) :
    ∀ (s : QueueSim α) (pre : List α),
      (s.received ++ s.queue).Sublist pre →
      (((ops.foldl (queue_step capacity) s)).received
          ++ ((ops.foldl (queue_step capacity) s)).queue).Sublist
        (pre ++ sent_items ops) := by
  induction ops with
  | nil => intro s pre h; simpa [sent_items] using h
  | cons op rest ih =>
      intro s pre h
      rw [List.foldl_cons]
      cases op with
      | send a =>
          rw [sent_items_send, show pre ++ a :: sent_items rest
              = (pre ++ [a]) ++ sent_items rest by simp]
          apply ih
          rw [queue_step_send_received, queue_step_send_queue]
          rw [show s.received ++ ((if capacity ≤ s.queue.length then
              s.queue.tail else s.queue) ++ [a])
              = (s.received ++ (if capacity ≤ s.queue.length then
                s.queue.tail else s.queue)) ++ [a] by simp]
          apply List.Sublist.append _ (List.Sublist.refl [a])
          apply List.Sublist.trans _ h
          apply List.Sublist.append (List.Sublist.refl s.received)
          split
          · exact List.tail_sublist s.queue
          · exact List.Sublist.refl s.queue
      | recv =>
          rw [sent_items_recv]
          apply ih
          obtain ⟨qs, rec, f⟩ := s
          cases qs with
          | nil => exact h
          | cons x t =>
              simp only [queue_step]
              simpa using h

/-- C1: a send_sync call that obtains the lock on a queue holding exactly
capacity items removes the front (oldest) element, passes it to the drop
callback (which counts a failed frame), and appends the new item at the
back; consequently the queue length never exceeds capacity over any
operation sequence from the empty queue, and the values returned by recv
form an order-preserving subsequence of the successfully enqueued
items. -/
theorem C1_send_sync_drop_oldest_fifo {α : Type} (capacity : Nat)
    (hcap : 1 ≤ capacity) (ops : List (QueueOp α)) (q : List α) (a : α)
    (received : List α) (failed : Nat) (hq : q.length = capacity) :
    (queue_run capacity ops).queue.length ≤ capacity ∧
    (queue_run capacity ops).received.Sublist (sent_items ops) ∧
    (send_sync_locked capacity q a).2 = q.head? ∧
    (send_sync_locked capacity q a).1 = q.tail ++ [a] ∧
    (queue_step capacity ⟨q, received, failed⟩
        (QueueOp.send a)).frames_failed = failed + 1 ∧
    (queue_step capacity ⟨q, received, failed⟩
        (QueueOp.send a)).queue = q.tail ++ [a] := by
  have hcl : capacity ≤ q.length := le_of_eq hq.symm
  have hne : q ≠ [] := by
    intro h
    rw [h] at hq
    simp at hq
    omega
  refine ⟨?_, ?_, ?_, ?_, ?_, ?_⟩
  · exact queue_fold_length_le capacity hcap ops ⟨[], [], 0⟩ (by simp)
  · have h := queue_fold_fifo capacity ops ⟨[], [], 0⟩ [] (by simp)
    simp only [List.nil_append] at h
    exact List.Sublist.trans
      (List.sublist_append_left (queue_run capacity ops).received
        (queue_run capacity ops).queue) h
  · rw [send_sync_locked_dropped, if_pos hcl]
  · rw [send_sync_locked_queue, if_pos hcl]
  · simp only [queue_step, send_sync_locked_dropped]
    rw [if_pos hcl]
    cases q with
    | nil => exact absurd rfl hne
    | cons x t => simp
  · simpa using queue_step_send_queue capacity ⟨q, received, failed⟩ a
      |>.trans (by rw [if_pos hcl])

/-- C1 witness at capacity 2 on a trace of four sends and two receives and
a full queue of two items. -/
theorem C1_send_sync_drop_oldest_fifo_witness :
    1 ≤ 2 ∧ ([7, 8] : List Nat).length = 2 ∧
    ((queue_run 2 [QueueOp.send 1, QueueOp.send 2, QueueOp.send 3,
        QueueOp.send 4, QueueOp.recv, QueueOp.recv]).queue.length ≤ 2 ∧
      (queue_run 2 [QueueOp.send 1, QueueOp.send 2, QueueOp.send 3,
        QueueOp.send 4, QueueOp.recv, QueueOp.recv]).received.Sublist
        (sent_items [QueueOp.send 1, QueueOp.send 2, QueueOp.send 3,
          QueueOp.send 4, QueueOp.recv, QueueOp.recv]) ∧
      (send_sync_locked 2 [7, 8] 9).2 = ([7, 8] : List Nat).head? ∧
      (send_sync_locked 2 [7, 8] 9).1 = ([7, 8] : List Nat).tail ++ [9] ∧
      (queue_step 2 ⟨[7, 8], [], 0⟩ (QueueOp.send 9)).frames_failed
        = 0 + 1 ∧
      (queue_step 2 ⟨[7, 8], [], 0⟩ (QueueOp.send 9)).queue
        = ([7, 8] : List Nat).tail ++ [9]) :=
  ⟨by decide, by decide,
    C1_send_sync_drop_oldest_fifo 2 (by decide)
      [QueueOp.send 1, QueueOp.send 2, QueueOp.send 3, QueueOp.send 4,
        QueueOp.recv, QueueOp.recv] [7, 8] 9 [] 0 (by decide)⟩

/-! ## Source processor lemmas -/

theorem worker_complete_total (st : ProcessorState) (h : st.queue ≠ []) :
    (worker_complete st).frames_total = st.frames_total + 1 := by
  cases hq : st.queue with
  | nil => exact absurd hq h
  | cons x t => simp [worker_complete, hq]

/-- C10: a send_sync call that fails to acquire the lock returns the error
result and leaves the queue unchanged, drops the new item, and does not
invoke the drop callback; the calling process_frame then counts the
failure itself by incrementing frames_failed. -/
theorem C10_send_sync_contention {α : Type} (capacity stride : Nat)
    (q : List α) (a : α) (st : ProcessorState) (pts : Nat)
    (hadm : (st.frames_total + 1) % stride = 0) :
    send_sync false capacity q a = ((q, none), false) ∧
    process_frame stride capacity false st pts
      = ({ st with frames_failed := st.frames_failed + 1 }, false) := by
  constructor
  · rfl
  · simp [process_frame, hadm, send_sync]

/-- C10 witness: stride 1 admits the first frame, the lock is contended. -/
theorem C10_send_sync_contention_witness :
    (initial_state.frames_total + 1) % 1 = 0 ∧
    (send_sync false 5 ([1, 2] : List Nat) 9 = (([1, 2], none), false) ∧
      process_frame 1 5 false initial_state 7
        = ({ initial_state with
              frames_failed := initial_state.frames_failed + 1 }, false)) :=
  ⟨by decide, C10_send_sync_contention 5 1 [1, 2] 9 initial_state 7
    (by decide)⟩

/-- C6: under the sequential interleaving in which the worker finishes
each admitted frame before the next decoder callback (the worker
increments frames_total after processing, source.rs line 212, while the
skip branch of process_frame increments it directly), every submitted
frame increments frames_total by exactly one; the frame is enqueued
exactly when the incremented total is a multiple of the stride; a frame
skipped by the stride policy changes neither frames_failed nor the queue;
and with stride 3 exactly the third and sixth of six submitted frames
(pts 12 and 15 of pts 10 to 15) are admitted, with no failures counted. -/
theorem C6_stride_policy (stride capacity : Nat) (hs : 1 ≤ stride)
    (st : ProcessorState) (pts : Nat) :
    (submit_frame stride capacity st pts).1.frames_total
      = st.frames_total + 1 ∧
    ((submit_frame stride capacity st pts).2 = true ↔
      (st.frames_total + 1) % stride = 0) ∧
    ((st.frames_total + 1) % stride ≠ 0 →
      (submit_frame stride capacity st pts).1.frames_failed
          = st.frames_failed ∧
      (submit_frame stride capacity st pts).1.queue = st.queue) ∧
    (run_frames 3 5 initial_state [10, 11, 12, 13, 14, 15]).2
      = [false, false, true, false, false, true] ∧
    (run_frames 3 5 initial_state [10, 11, 12, 13, 14, 15]).1.frames_failed
      = 0 := by
  by_cases h : (st.frames_total + 1) % stride = 0
  · refine ⟨?_, ?_, ?_, by decide, by decide⟩
    · have hne : (send_sync_locked capacity st.queue pts).1 ≠ [] := by
        rw [send_sync_locked_queue]
        simp
      simp only [submit_frame, process_frame, if_pos h, send_sync, if_pos rfl]
      simp only [if_true]
      rw [worker_complete_total _ (by simpa using hne)]
    · simp [submit_frame, process_frame, if_pos h, send_sync, h]
    · intro hno
      exact absurd h hno
  · refine ⟨?_, ?_, ?_, by decide, by decide⟩
    · simp [submit_frame, process_frame, if_neg h, send_sync]
    · simp [submit_frame, process_frame, if_neg h, send_sync]
      exact h
    · intro _
      constructor
      · simp [submit_frame, process_frame, if_neg h]
      · simp [submit_frame, process_frame, if_neg h]

/-- C6 witness at stride 3 on the initial state. -/
theorem C6_stride_policy_witness :
    1 ≤ 3 ∧
    ((submit_frame 3 5 initial_state 10).1.frames_total
        = initial_state.frames_total + 1 ∧
      ((submit_frame 3 5 initial_state 10).2 = true ↔
        (initial_state.frames_total + 1) % 3 = 0) ∧
      ((initial_state.frames_total + 1) % 3 ≠ 0 →
        (submit_frame 3 5 initial_state 10).1.frames_failed
            = initial_state.frames_failed ∧
        (submit_frame 3 5 initial_state 10).1.queue
            = initial_state.queue) ∧
      (run_frames 3 5 initial_state [10, 11, 12, 13, 14, 15]).2
        = [false, false, true, false, false, true] ∧
      (run_frames 3 5 initial_state
          [10, 11, 12, 13, 14, 15]).1.frames_failed = 0) :=
  ⟨by decide, C6_stride_policy 3 5 (by decide) initial_state 10⟩

/-! ## Letterbox lemmas -/

/-- The forward scale and the stored inverse scale cancel exactly. -/
theorem calculate_letterbox_scale_inv (H W target : Nat)
    (hHW : 1 ≤ max H W) (ht : 1 ≤ target) :
    (calculate_letterbox H W target).scale
      * (calculate_letterbox H W target).inv_scale = 1 := by
  have h1 : ((max H W : Nat) : ℚ) ≠ 0 := Nat.cast_ne_zero.mpr (by omega)
  have h2 : ((target : Nat) : ℚ) ≠ 0 := Nat.cast_ne_zero.mpr (by omega)
  simp only [calculate_letterbox]
  rw [div_mul_div_comm, mul_comm, div_self (mul_ne_zero h1 h2)]

/-- C4: the letterbox inversion of postprocess is the exact inverse of the
forward letterbox transform over the rationals. For any source size with
a positive maximal dimension, forwarding a box given by its corners and
then applying the inversion of postprocess to its center form returns the
original corners exactly, hence within 1 pixel; and the concrete 1920 by
1080 source yields new_width 640, new_height 360, pad_x 0, pad_y 140,
with the letterbox box (100, 200, 200, 300) inverting to
(300, 180, 600, 480). -/
theorem C4_letterbox_roundtrip (H W : Nat) (hHW : 1 ≤ max H W)
    (u1 v1 u2 v2 : ℚ) :
    (invert_letterbox_bbox (calculate_letterbox H W 640)
        ((letterbox_forward_x (calculate_letterbox H W 640) u1
            + letterbox_forward_x (calculate_letterbox H W 640) u2) / 2)
        ((letterbox_forward_y (calculate_letterbox H W 640) v1
            + letterbox_forward_y (calculate_letterbox H W 640) v2) / 2)
        (letterbox_forward_x (calculate_letterbox H W 640) u2
            - letterbox_forward_x (calculate_letterbox H W 640) u1)
        (letterbox_forward_y (calculate_letterbox H W 640) v2
            - letterbox_forward_y (calculate_letterbox H W 640) v1)
      = (u1, v1, u2, v2)) ∧
    (calculate_letterbox 1080 1920 640).new_width = 640 ∧
    (calculate_letterbox 1080 1920 640).new_height = 360 ∧
    (calculate_letterbox 1080 1920 640).pad_x = 0 ∧
    (calculate_letterbox 1080 1920 640).pad_y = 140 ∧
    invert_letterbox_bbox (calculate_letterbox 1080 1920 640)
        ((100 + 200) / 2) ((200 + 300) / 2) (200 - 100) (300 - 200)
      = (300, 180, 600, 480) := by
  have hsi := calculate_letterbox_scale_inv H W 640 hHW (by omega)
  have hconc : calculate_letterbox 1080 1920 640
      = { pad_x := 0, pad_y := 140, new_width := 640, new_height := 360,
          scale := (640 : ℚ) / 1920, inv_scale := (1920 : ℚ) / 640 } := by
    have hmax : max 1080 1920 = 1920 := by decide
    have hw : ((1920 : Nat) : ℚ) * ((640 : ℚ) / ((1920 : Nat) : ℚ))
        = (640 : ℚ) := by norm_num
    have hh : ((1080 : Nat) : ℚ) * ((640 : ℚ) / ((1920 : Nat) : ℚ))
        = (360 : ℚ) := by norm_num
    simp only [calculate_letterbox, rat_to_usize, hmax, hw, hh]
    norm_num
    decide
  refine ⟨?_, ?_, ?_, ?_, ?_, ?_⟩
  · simp only [invert_letterbox_bbox, letterbox_forward_x,
      letterbox_forward_y, Prod.ext_iff]
    refine ⟨?_, ?_, ?_, ?_⟩
    · linear_combination u1 * hsi
    · linear_combination v1 * hsi
    · linear_combination u2 * hsi
    · linear_combination v2 * hsi
  · rw [hconc]
  · rw [hconc]
  · rw [hconc]
  · rw [hconc]
  · rw [hconc]
    simp only [invert_letterbox_bbox, Prod.ext_iff]
    norm_num

/-- C4 witness at the 1920 by 1080 source and the concrete box. -/
theorem C4_letterbox_roundtrip_witness :
    1 ≤ max 1080 1920 ∧
    ((invert_letterbox_bbox (calculate_letterbox 1080 1920 640)
        ((letterbox_forward_x (calculate_letterbox 1080 1920 640) 300
            + letterbox_forward_x (calculate_letterbox 1080 1920 640) 600) / 2)
        ((letterbox_forward_y (calculate_letterbox 1080 1920 640) 180
            + letterbox_forward_y (calculate_letterbox 1080 1920 640) 480) / 2)
        (letterbox_forward_x (calculate_letterbox 1080 1920 640) 600
            - letterbox_forward_x (calculate_letterbox 1080 1920 640) 300)
        (letterbox_forward_y (calculate_letterbox 1080 1920 640) 480
            - letterbox_forward_y (calculate_letterbox 1080 1920 640) 180)
      = (300, 180, 600, 480)) ∧
    (calculate_letterbox 1080 1920 640).new_width = 640 ∧
    (calculate_letterbox 1080 1920 640).new_height = 360 ∧
    (calculate_letterbox 1080 1920 640).pad_x = 0 ∧
    (calculate_letterbox 1080 1920 640).pad_y = 140 ∧
    invert_letterbox_bbox (calculate_letterbox 1080 1920 640)
        ((100 + 200) / 2) ((200 + 300) / 2) (200 - 100) (300 - 200)
      = (300, 180, 600, 480)) :=
  ⟨by decide, C4_letterbox_roundtrip 1080 1920 (by decide) 300 180 600 480⟩

/-! ## NMS lemmas -/

/-- A kept detection of a different class never suppresses a candidate. -/
theorem suppresses_ne_cls (thr : ℚ) (kept cand : ResultBBOX)
    (h : kept.cls ≠ cand.cls) : suppresses thr kept cand = false := by
  simp [suppresses, h]

/-- When an earlier kept detection of the same class did not suppress a
candidate, the intersection over union of the two (as computed by the
source) is at most the threshold. -/
theorem iou_le_of_not_suppresses (thr : ℚ) (a b : ResultBBOX)
    (hthr : 0 ≤ thr) (hcls : a.cls = b.cls)
    (h : suppresses thr a b = false) : iou a b ≤ thr := by
  simp only [suppresses, hcls, ne_eq, not_true_eq_false, if_false,
    max_comm b.x1 a.x1, max_comm b.y1 a.y1, min_comm b.x2 a.x2,
    min_comm b.y2 a.y2] at h
  simp only [iou]
  split
  · next hov =>
      rw [if_pos hov] at h
      simp only [gt_iff_lt, decide_eq_false_iff_not, not_lt] at h
      have hI : 0 < (min a.x2 b.x2 - max a.x1 b.x1)
          * (min a.y2 b.y2 - max a.y1 b.y1) :=
        mul_pos (sub_pos.mpr hov.1) (sub_pos.mpr hov.2)
      have hBA : thr * ((b.x2 - b.x1) * (b.y2 - b.y1)
            + (a.x2 - a.x1) * (a.y2 - a.y1)
            - (min a.x2 b.x2 - max a.x1 b.x1)
              * (min a.y2 b.y2 - max a.y1 b.y1))
          = thr * ((a.x2 - a.x1) * (a.y2 - a.y1)
            + (b.x2 - b.x1) * (b.y2 - b.y1)
            - (min a.x2 b.x2 - max a.x1 b.x1)
              * (min a.y2 b.y2 - max a.y1 b.y1)) := by
        ring
      rw [hBA] at h
      have hU : 0 < (a.x2 - a.x1) * (a.y2 - a.y1)
          + (b.x2 - b.x1) * (b.y2 - b.y1)
          - (min a.x2 b.x2 - max a.x1 b.x1)
            * (min a.y2 b.y2 - max a.y1 b.y1) := by
        nlinarith [hI, h, hthr]
      rw [div_le_iff₀ hU]
      exact h
  · exact hthr

/-- The kept list only grows at the back, and the additions form an
order-preserving selection of the candidate list. -/
theorem nms_keep_eq_append (thr : ℚ) (l : List ResultBBOX) :
    ∀ kept, ∃ s, nms_keep thr kept l = kept ++ s ∧ s.Sublist l := by
  induction l with
  | nil =>
      intro kept
      exact ⟨[], by simp [nms_keep], List.Sublist.refl []⟩
  | cons c rest ih =>
      intro kept
      by_cases h : kept.any (fun k => suppresses thr k c) = true
      · obtain ⟨s, hs, hsub⟩ := ih kept
        exact ⟨s, by simp [nms_keep, h, hs],
          hsub.trans (List.sublist_cons_self c rest)⟩
      · obtain ⟨s, hs, hsub⟩ := ih (kept ++ [c])
        refine ⟨c :: s, ?_, ?_⟩
        · simp only [nms_keep, h, if_false, hs]
          simp
        · exact List.Sublist.cons₂ c hsub

/-- Invariant of the nms_keep loop: the kept list stays pairwise
non-suppressing (each later entry was checked against every earlier
one). -/
theorem nms_keep_pairwise (thr : ℚ) (l : List ResultBBOX) :
    ∀ kept, kept.Pairwise (fun a b => suppresses thr a b = false) →
      (nms_keep thr kept l).Pairwise
        (fun a b => suppresses thr a b = false) := by
  induction l with
  | nil =>
      intro kept h
      simpa [nms_keep] using h
  | cons c rest ih =>
      intro kept h
      by_cases hs : kept.any (fun k => suppresses thr k c) = true
      · simpa [nms_keep, hs] using ih kept h
      · have hall : ∀ k ∈ kept, suppresses thr k c = false := by
          intro k hk
          cases hsup : suppresses thr k c
          · rfl
          · exact absurd (List.any_eq_true.mpr ⟨k, hk, hsup⟩) hs
        simp only [nms_keep, hs, if_false]
        apply ih
        rw [List.pairwise_append]
        refine ⟨h, by simp, ?_⟩
        intro x hx y hy
        simp only [List.mem_singleton] at hy
        subst hy
        exact hall x hx

/-- The merge sort used to model the unstable sort of bbox_nms yields a
list that is pairwise descending by score. -/
theorem sort_detections_sorted (dets : List ResultBBOX) :
    (sort_detections dets).Pairwise (fun a b => b.score ≤ a.score) := by
  have h := @List.sorted_mergeSort ResultBBOX
    (fun a b => decide (b.score ≤ a.score))
    (by
      intro a b c hab hbc
      simp only [decide_eq_true_iff] at hab hbc ⊢
      exact le_trans hbc hab)
    (by
      intro a b
      simp only [Bool.or_eq_true, decide_eq_true_iff]
      exact le_total b.score a.score)
    dets
  exact h.imp (fun hab => of_decide_eq_true hab)

/-- The NMS output is an order-preserving selection of the sorted
candidate list. -/
theorem bbox_nms_sublist_sorted (thr : ℚ) (dets : List ResultBBOX) :
    (bbox_nms thr dets).Sublist (sort_detections dets) := by
  by_cases h : dets.length ≤ 1
  · rw [bbox_nms, if_pos h]
    cases dets with
    | nil => simp [sort_detections]
    | cons a t =>
        cases t with
        | nil => simp [sort_detections]
        | cons b t2 => simp at h
  · rw [bbox_nms, if_neg h]
    obtain ⟨s, hs, hsub⟩ := nms_keep_eq_append thr (sort_detections dets) []
    rw [hs]
    simpa using hsub

/-- The NMS output is pairwise non-suppressing. -/
theorem bbox_nms_pairwise_suppresses (thr : ℚ) (dets : List ResultBBOX) :
    (bbox_nms thr dets).Pairwise
      (fun a b => suppresses thr a b = false) := by
  by_cases h : dets.length ≤ 1
  · rw [bbox_nms, if_pos h]
    cases dets with
    | nil => simp
    | cons a t =>
        cases t with
        | nil => simp
        | cons b t2 => simp at h
  · rw [bbox_nms, if_neg h]
    exact nms_keep_pairwise thr (sort_detections dets) [] (by simp)

/-- C3: for every candidate list and nonnegative threshold, class-aware
NMS returns a list in which every pair of kept detections of the same
class has intersection over union at most the threshold, a kept detection
of a different class never suppresses a candidate, and the output is an
order-preserving selection of the score-descending sorted candidates
(hence itself ordered by score descending). -/
theorem C3_class_aware_nms (thr : ℚ) (hthr : 0 ≤ thr)
    (dets : List ResultBBOX) :
    ((bbox_nms thr dets).Pairwise fun a b =>
      a.cls = b.cls → iou a b ≤ thr) ∧
    (∀ kept cand : ResultBBOX, kept.cls ≠ cand.cls →
      suppresses thr kept cand = false) ∧
    (bbox_nms thr dets).Sublist (sort_detections dets) ∧
    ((bbox_nms thr dets).Pairwise fun a b => b.score ≤ a.score) := by
  refine ⟨?_, ?_, bbox_nms_sublist_sorted thr dets, ?_⟩
  · exact (bbox_nms_pairwise_suppresses thr dets).imp
      (fun h hcls => iou_le_of_not_suppresses thr _ _ hthr hcls h)
  · intro kept cand h
    exact suppresses_ne_cls thr kept cand h
  · exact List.Pairwise.sublist (bbox_nms_sublist_sorted thr dets)
      (sort_detections_sorted dets)

/-- C3 witness at threshold one half on the three boxes of the concrete
NMS scenario. -/
theorem C3_class_aware_nms_witness :
    (0 : ℚ) ≤ 1 / 2 ∧
    (((bbox_nms (1 / 2)
        [{ x1 := 0, y1 := 0, x2 := 10, y2 := 10, score := 9 / 10, cls := 0 },
         { x1 := 1, y1 := 1, x2 := 10, y2 := 10, score := 8 / 10, cls := 0 },
         { x1 := 20, y1 := 20, x2 := 30, y2 := 30, score := 7 / 10,
           cls := 0 }]).Pairwise fun a b => a.cls = b.cls → iou a b ≤ 1 / 2) ∧
    (∀ kept cand : ResultBBOX, kept.cls ≠ cand.cls →
      suppresses (1 / 2) kept cand = false) ∧
    (bbox_nms (1 / 2)
        [{ x1 := 0, y1 := 0, x2 := 10, y2 := 10, score := 9 / 10, cls := 0 },
         { x1 := 1, y1 := 1, x2 := 10, y2 := 10, score := 8 / 10, cls := 0 },
         { x1 := 20, y1 := 20, x2 := 30, y2 := 30, score := 7 / 10,
           cls := 0 }]).Sublist (sort_detections
        [{ x1 := 0, y1 := 0, x2 := 10, y2 := 10, score := 9 / 10, cls := 0 },
         { x1 := 1, y1 := 1, x2 := 10, y2 := 10, score := 8 / 10, cls := 0 },
         { x1 := 20, y1 := 20, x2 := 30, y2 := 30, score := 7 / 10,
           cls := 0 }]) ∧
    ((bbox_nms (1 / 2)
        [{ x1 := 0, y1 := 0, x2 := 10, y2 := 10, score := 9 / 10, cls := 0 },
         { x1 := 1, y1 := 1, x2 := 10, y2 := 10, score := 8 / 10, cls := 0 },
         { x1 := 20, y1 := 20, x2 := 30, y2 := 30, score := 7 / 10,
           cls := 0 }]).Pairwise fun a b => b.score ≤ a.score)) :=
  ⟨le_of_lt one_half_pos,
    C3_class_aware_nms (1 / 2) (le_of_lt one_half_pos)
      [{ x1 := 0, y1 := 0, x2 := 10, y2 := 10, score := 9 / 10, cls := 0 },
       { x1 := 1, y1 := 1, x2 := 10, y2 := 10, score := 8 / 10, cls := 0 },
       { x1 := 20, y1 := 20, x2 := 30, y2 := 30, score := 7 / 10,
         cls := 0 }]⟩

/-! ## Preprocessing lemmas -/

/-- Basic facts about calculate_letterbox at the YOLO target size: the
resampled extents are clamped to the target and the pads are half the
remaining margins. -/
theorem calculate_letterbox_facts (H W : Nat) :
    (calculate_letterbox H W TARGET_SIZE).new_height ≤ TARGET_SIZE ∧
    (calculate_letterbox H W TARGET_SIZE).new_width ≤ TARGET_SIZE ∧
    (calculate_letterbox H W TARGET_SIZE).pad_y
      = (TARGET_SIZE - (calculate_letterbox H W TARGET_SIZE).new_height) / 2 ∧
    (calculate_letterbox H W TARGET_SIZE).pad_x
      = (TARGET_SIZE - (calculate_letterbox H W TARGET_SIZE).new_width) / 2 := by
  refine ⟨?_, ?_, rfl, rfl⟩
  · exact Nat.min_le_right _ _
  · exact Nat.min_le_right _ _

/-- Every position written by the pixel loops lies in the active
letterboxed region. -/
theorem write_pos_inside (lb : LetterboxParams)
    (hnh : lb.new_height ≤ TARGET_SIZE) (hnw : lb.new_width ≤ TARGET_SIZE)
    (hpy : lb.pad_y = (TARGET_SIZE - lb.new_height) / 2)
    (hpx : lb.pad_x = (TARGET_SIZE - lb.new_width) / 2)
    (y x p : Nat) (hy : y < lb.new_height) (hx : x < lb.new_width)
    (hp : p < 3) :
    inside_active lb (y_dst_offset lb y + x + p * TARGET_PIXELS) := by
  simp only [inside_active, y_dst_offset, TARGET_PIXELS, TARGET_SIZE] at *
  omega

/-- A pixel write does not change positions outside the active region. -/
theorem write_pixel_getElem_outside (fr : RawFrame) (lb : LetterboxParams)
    (hnh : lb.new_height ≤ TARGET_SIZE) (hnw : lb.new_width ≤ TARGET_SIZE)
    (hpy : lb.pad_y = (TARGET_SIZE - lb.new_height) / 2)
    (hpx : lb.pad_x = (TARGET_SIZE - lb.new_width) / 2)
    (y x idx : Nat) (hy : y < lb.new_height) (hx : x < lb.new_width)
    (hout : ¬ inside_active lb idx) (buf : List ℚ) :
    (write_pixel fr lb y x buf)[idx]? = buf[idx]? := by
  have h0 : y_dst_offset lb y + x ≠ idx := by
    intro he
    apply hout
    rw [← he]
    simpa using write_pos_inside lb hnh hnw hpy hpx y x 0 hy hx (by omega)
  have h1 : y_dst_offset lb y + x + TARGET_PIXELS ≠ idx := by
    intro he
    apply hout
    rw [← he]
    simpa using write_pos_inside lb hnh hnw hpy hpx y x 1 hy hx (by omega)
  have h2 : y_dst_offset lb y + x + 2 * TARGET_PIXELS ≠ idx := by
    intro he
    apply hout
    rw [← he]
    have := write_pos_inside lb hnh hnw hpy hpx y x 2 hy hx (by omega)
    simpa [two_mul, mul_comm] using this
  simp only [write_pixel]
  rw [List.getElem?_set_ne h2, List.getElem?_set_ne h1,
    List.getElem?_set_ne h0]

/-- The inner column fold does not change positions outside the active
region. -/
theorem fold_cols_getElem_outside (fr : RawFrame) (lb : LetterboxParams)
    (hnh : lb.new_height ≤ TARGET_SIZE) (hnw : lb.new_width ≤ TARGET_SIZE)
    (hpy : lb.pad_y = (TARGET_SIZE - lb.new_height) / 2)
    (hpx : lb.pad_x = (TARGET_SIZE - lb.new_width) / 2)
    (y idx : Nat) (hy : y < lb.new_height)
    (hout : ¬ inside_active lb idx) (xs : List Nat)
    (hxs : ∀ x ∈ xs, x < lb.new_width) :
    ∀ buf : List ℚ,
      (xs.foldl (fun b x => write_pixel fr lb y x b) buf)[idx]?
        = buf[idx]? := by
  induction xs with
  | nil => intro buf; rfl
  | cons x rest ih =>
      intro buf
      rw [List.foldl_cons]
      rw [ih (fun z hz => hxs z (List.mem_cons_of_mem x hz))]
      exact write_pixel_getElem_outside fr lb hnh hnw hpy hpx y x idx hy
        (hxs x (List.mem_cons_self x rest)) hout buf

/-- The row fold does not change positions outside the active region. -/
theorem fold_rows_getElem_outside (fr : RawFrame) (lb : LetterboxParams)
    (hnh : lb.new_height ≤ TARGET_SIZE) (hnw : lb.new_width ≤ TARGET_SIZE)
    (hpy : lb.pad_y = (TARGET_SIZE - lb.new_height) / 2)
    (hpx : lb.pad_x = (TARGET_SIZE - lb.new_width) / 2)
    (idx : Nat) (hout : ¬ inside_active lb idx) (ys : List Nat)
    (hys : ∀ y ∈ ys, y < lb.new_height) :
    ∀ buf : List ℚ,
      (ys.foldl
          (fun buf y =>
            (List.range lb.new_width).foldl
              (fun b x => write_pixel fr lb y x b) buf) buf)[idx]?
        = buf[idx]? := by
  induction ys with
  | nil => intro buf; rfl
  | cons y rest ih =>
      intro buf
      rw [List.foldl_cons]
      rw [ih (fun z hz => hys z (List.mem_cons_of_mem y hz))]
      exact fold_cols_getElem_outside fr lb hnh hnw hpy hpx y idx
        (hys y (List.mem_cons_self y rest)) hout (List.range lb.new_width)
        (fun x hx => List.mem_range.mp hx) buf

/-- A pixel write preserves the buffer length. -/
theorem write_pixel_length (fr : RawFrame) (lb : LetterboxParams)
    (y x : Nat) (buf : List ℚ) :
    (write_pixel fr lb y x buf).length = buf.length := by
  simp [write_pixel]

/-- The full resampling fold preserves the buffer length. -/
theorem fold_rows_length (fr : RawFrame) (lb : LetterboxParams)
    (ys : List Nat) :
    ∀ buf : List ℚ,
      (ys.foldl
          (fun buf y =>
            (List.range lb.new_width).foldl
              (fun b x => write_pixel fr lb y x b) buf) buf).length
        = buf.length := by
  induction ys with
  | nil => intro buf; rfl
  | cons y rest ih =>
      intro buf
      rw [List.foldl_cons, ih]
      generalize List.range lb.new_width = xs
      induction xs generalizing buf with
      | nil => rfl
      | cons x xrest xih =>
          rw [List.foldl_cons, xih, write_pixel_length]

/-- The scalar preprocessing output always has three planes of
TARGET_PIXELS elements. -/
theorem preprocess_scalar_length (fr : RawFrame) :
    (preprocess_scalar fr).length = TARGET_PIXELS * 3 := by
  simp only [preprocess_scalar]
  rw [fold_rows_length]
  simp

/-- C5: for every frame with positive dimensions and data length exactly
height times width times 3, YOLO preprocess succeeds with a buffer of
exactly 3 times 640 times 640 elements (hence 3 times 640 times 640 times
the precision byte width bytes), in which every position outside the
active letterboxed region holds the normalized pad value 114 over 255,
which is not the raw byte value 114. -/
theorem C5_preprocess_pad (fr : RawFrame) (prec : InferencePrecision)
    (hH : 1 ≤ fr.height) (hW : 1 ≤ fr.width)
    (hlen : fr.data.length = fr.height * fr.width * 3) :
    preprocess fr prec = Except.ok (preprocess_scalar fr) ∧
    (preprocess_scalar fr).length * precision_bytes prec
      = 3 * 640 * 640 * precision_bytes prec ∧
    (∀ idx, idx < TARGET_PIXELS * 3 →
      ¬ inside_active (calculate_letterbox fr.height fr.width TARGET_SIZE)
          idx →
      (preprocess_scalar fr)[idx]? = some (norm_lut 114)) ∧
    norm_lut 114 = 114 / 255 ∧ (114 : ℚ) / 255 ≠ 114 := by
  obtain ⟨hnh, hnw, hpy, hpx⟩ :=
    calculate_letterbox_facts fr.height fr.width
  refine ⟨?_, ?_, ?_, rfl, by norm_num⟩
  · simp [preprocess, hlen]
  · rw [preprocess_scalar_length]
    norm_num [TARGET_PIXELS, TARGET_SIZE]
  · intro idx hidx hout
    simp only [preprocess_scalar]
    rw [fold_rows_getElem_outside fr _ hnh hnw hpy hpx idx hout
      (List.range (calculate_letterbox fr.height fr.width
        TARGET_SIZE).new_height) (fun y hy => List.mem_range.mp hy)]
    rw [List.getElem?_replicate]
    rw [if_pos hidx]

/-- C5 witness at a one pixel frame. -/
theorem C5_preprocess_pad_witness :
    1 ≤ 1 ∧ 1 ≤ 1 ∧
    ([0, 0, 0] : List Nat).length = 1 * 1 * 3 ∧
    (preprocess { data := [0, 0, 0], height := 1, width := 1 }
        InferencePrecision.FP16
      = Except.ok (preprocess_scalar
          { data := [0, 0, 0], height := 1, width := 1 }) ∧
    (preprocess_scalar
        { data := [0, 0, 0], height := 1, width := 1 }).length
        * precision_bytes InferencePrecision.FP16
      = 3 * 640 * 640 * precision_bytes InferencePrecision.FP16 ∧
    (∀ idx, idx < TARGET_PIXELS * 3 →
      ¬ inside_active (calculate_letterbox 1 1 TARGET_SIZE) idx →
      (preprocess_scalar
          { data := [0, 0, 0], height := 1, width := 1 })[idx]?
        = some (norm_lut 114)) ∧
    norm_lut 114 = 114 / 255 ∧ (114 : ℚ) / 255 ≠ 114) :=
  ⟨by decide, by decide, by decide,
    C5_preprocess_pad { data := [0, 0, 0], height := 1, width := 1 }
      InferencePrecision.FP16 (by decide) (by decide) (by decide)⟩

/-! ## Batched inference lemmas -/

theorem list_chunks_nil (k : Nat) : list_chunks k ([] : List α) = [] := by
  simp [list_chunks]

theorem list_chunks_cons (k : Nat) (hk : k ≠ 0) (a : α) (l : List α) :
    list_chunks k (a :: l)
      = (a :: l).take k :: list_chunks k ((a :: l).drop k) := by
  rw [list_chunks]
  simp [hk]

/-- Chunk i of the inputs is the consecutive block of k inputs starting at
offset i times k. -/
theorem chunk_at_eq (k : Nat) (hk : 1 ≤ k) :
    ∀ (i : Nat) (l : List α), chunk_at k l i = (l.drop (i * k)).take k := by
  intro i
  induction i with
  | zero =>
      intro l
      cases l with
      | nil => simp [chunk_at, list_chunks_nil]
      | cons a t =>
          rw [chunk_at, list_chunks_cons k (by omega) a t]
          simp
  | succ i ih =>
      intro l
      cases l with
      | nil => simp [chunk_at, list_chunks_nil]
      | cons a t =>
          rw [chunk_at, list_chunks_cons k (by omega) a t]
          have h1 : (list_chunks k ((a :: t).drop k)).getD i []
              = chunk_at k ((a :: t).drop k) i := rfl
          simp only [List.getD_cons_succ]
          rw [h1, ih ((a :: t).drop k), List.drop_drop]
          have h2 : k + i * k = (i + 1) * k := by ring
          rw [h2]

/-- A chunk index is in range exactly when its start offset is. -/
theorem list_chunks_length_iff (k : Nat) (hk : 1 ≤ k) :
    ∀ (i : Nat) (l : List α),
      i < (list_chunks k l).length ↔ i * k < l.length := by
  intro i
  induction i with
  | zero =>
      intro l
      cases l with
      | nil => simp [list_chunks_nil]
      | cons a t =>
          rw [list_chunks_cons k (by omega) a t]
          simp
  | succ i ih =>
      intro l
      cases l with
      | nil => simp [list_chunks_nil]
      | cons a t =>
          rw [list_chunks_cons k (by omega) a t]
          have h1 := ih ((a :: t).drop k)
          have h2 : (i + 1) * k = i * k + k := Nat.succ_mul i k
          simp only [List.length_cons, List.length_drop] at h1 ⊢
          omega

/-- The per-sample slices of one response: as many as the batch size. -/
theorem chunk_slices_length (mc : ModelConfig) (blob : List Nat)
    (bs : Nat) : (chunk_slices mc blob bs).length = bs := by
  simp [chunk_slices]

theorem chunk_slices_getElem (mc : ModelConfig) (blob : List Nat)
    (bs r : Nat) (hr : r < bs) :
    (chunk_slices mc blob bs)[r]?
      = some ((blob.drop (r * output_size_per_sample mc)).take
          (output_size_per_sample mc)) := by
  have hlt : r < (chunk_slices mc blob bs).length := by
    rw [chunk_slices_length]
    exact hr
  rw [List.getElem?_eq_getElem hlt]
  simp [chunk_slices]

/-- The batch start ranges produced by infer are pairwise disjoint. -/
theorem infer_batches_pairwise_disjoint (mc : ModelConfig)
    (hk : 1 ≤ mc.batch_max_size) (net : Nat → InferRequest → List Nat)
    (inputs : List (List Nat)) :
    (infer_batches mc net inputs).Pairwise
      (fun p q => p.1 + p.2.length ≤ q.1 ∨ q.1 + q.2.length ≤ p.1) := by
  unfold infer_batches
  apply List.Pairwise.map _ _ (List.pairwise_lt_range _)
  intro a b hab
  left
  simp only [chunk_slices_length]
  have hlen : (chunk_at mc.batch_max_size inputs a).length
      ≤ mc.batch_max_size := by
    rw [chunk_at_eq _ hk]
    simp [List.length_take]
  calc a * mc.batch_max_size + (chunk_at mc.batch_max_size inputs a).length
      ≤ a * mc.batch_max_size + mc.batch_max_size :=
        Nat.add_le_add_left hlen _
    _ = (a + 1) * mc.batch_max_size := (Nat.succ_mul a _).symm
    _ ≤ b * mc.batch_max_size := Nat.mul_le_mul_right _ hab

/-- Slots not covered by any batch keep their initial content. -/
theorem place_results_not_covered
    (batches : List (Nat × List (List Nat))) (j : Nat)
    (h : ∀ p ∈ batches, ¬ (p.1 ≤ j ∧ j < p.1 + p.2.length)) :
    ∀ init : Nat → List Nat, batches.foldl write_batch init j = init j := by
  induction batches with
  | nil => intro init; rfl
  | cons p rest ih =>
      intro init
      rw [List.foldl_cons]
      rw [ih (fun q hq => h q (List.mem_cons_of_mem p hq))]
      simp only [write_batch]
      rw [if_neg (h p (List.mem_cons_self p rest))]

/-- A slot covered by one batch of a pairwise disjoint family receives
exactly that batch output, in any completion order. -/
theorem place_results_covered (si : Nat) (b : List (List Nat)) (j : Nat)
    (hj1 : si ≤ j) (hj2 : j < si + b.length) :
    ∀ batches : List (Nat × List (List Nat)),
      batches.Pairwise
        (fun p q => p.1 + p.2.length ≤ q.1 ∨ q.1 + q.2.length ≤ p.1) →
      (si, b) ∈ batches →
      ∀ init : Nat → List Nat,
        batches.foldl write_batch init j = b.getD (j - si) [] := by
  intro batches
  induction batches with
  | nil => intro _ hmem; cases hmem
  | cons p rest ih =>
      intro hdisj hmem init
      obtain ⟨hhead, htail⟩ := List.pairwise_cons.mp hdisj
      rw [List.foldl_cons]
      rcases List.mem_cons.mp hmem with heq | hmem2
      · rw [place_results_not_covered rest j ?notcov]
        case notcov =>
          intro q hq
          have hd := hhead q hq
          rw [← heq] at hd
          simp only at hd
          intro hcov
          omega
        simp only [write_batch, ← heq]
        rw [if_pos ⟨hj1, hj2⟩]
      · exact ih htail hmem2 (write_batch init p)

/-- C2: for every input list, infer splits the inputs into consecutive
chunks of size at most batch_max_size, each chunk request carries a
leading shape dimension equal to the chunk size and the concatenated
chunk bytes, and after all concurrently submitted batches complete, in
whatever order, the result has one output per input in input order, each
output being the per-sample slice of output_size_per_sample bytes cut
from its own chunk response at its in-chunk offset. -/
theorem C2_infer_batch_order (mc : ModelConfig)
    (hk : 1 ≤ mc.batch_max_size) (net : Nat → InferRequest → List Nat)
    (inputs : List (List Nat)) (order : List (Nat × List (List Nat)))
    (hperm : order.Perm (infer_batches mc net inputs)) :
    (infer_out inputs order).length = inputs.length ∧
    (∀ ci : Nat,
      chunk_at mc.batch_max_size inputs ci
        = (inputs.drop (ci * mc.batch_max_size)).take mc.batch_max_size ∧
      (chunk_at mc.batch_max_size inputs ci).length ≤ mc.batch_max_size ∧
      (chunk_request mc (chunk_at mc.batch_max_size inputs ci)).shape
        = ((chunk_at mc.batch_max_size inputs ci).length : Int)
            :: mc.input_shape ∧
      (chunk_request mc (chunk_at mc.batch_max_size inputs ci)).raw_input
        = (chunk_at mc.batch_max_size inputs ci).flatten) ∧
    (∀ j, j < inputs.length →
      (infer_out inputs order)[j]?
        = some (((net (j / mc.batch_max_size)
            (chunk_request mc (chunk_at mc.batch_max_size inputs
              (j / mc.batch_max_size)))).drop
            ((j % mc.batch_max_size) * output_size_per_sample mc)).take
            (output_size_per_sample mc))) := by
  refine ⟨by simp [infer_out], ?_, ?_⟩
  · intro ci
    refine ⟨chunk_at_eq _ hk ci inputs, ?_, rfl, rfl⟩
    rw [chunk_at_eq _ hk]
    simp [List.length_take]
  · intro j hj
    have hdisj : order.Pairwise
        (fun p q : Nat × List (List Nat) =>
          p.1 + p.2.length ≤ q.1 ∨ q.1 + q.2.length ≤ p.1) :=
      (List.Perm.pairwise_iff (fun hpq => hpq.symm) hperm).mpr
        (infer_batches_pairwise_disjoint mc hk net inputs)
    have hstart : j / mc.batch_max_size * mc.batch_max_size ≤ j :=
      Nat.div_mul_le_self j mc.batch_max_size
    have hmod : j / mc.batch_max_size * mc.batch_max_size
        + j % mc.batch_max_size = j := by
      rw [mul_comm]
      exact Nat.div_add_mod j mc.batch_max_size
    have hmodlt : j % mc.batch_max_size < mc.batch_max_size :=
      Nat.mod_lt _ (by omega)
    have hcilen : j / mc.batch_max_size
        < (list_chunks mc.batch_max_size inputs).length := by
      rw [list_chunks_length_iff _ hk]
      omega
    have hclen : (chunk_at mc.batch_max_size inputs
        (j / mc.batch_max_size)).length
        = min mc.batch_max_size
            (inputs.length - j / mc.batch_max_size * mc.batch_max_size) := by
      rw [chunk_at_eq _ hk]
      simp [List.length_take]
    have hmem : (j / mc.batch_max_size * mc.batch_max_size,
        chunk_slices mc
          (net (j / mc.batch_max_size)
            (chunk_request mc (chunk_at mc.batch_max_size inputs
              (j / mc.batch_max_size))))
          (chunk_at mc.batch_max_size inputs
            (j / mc.batch_max_size)).length) ∈ order := by
      rw [List.Perm.mem_iff hperm]
      unfold infer_batches
      apply List.mem_map.mpr
      exact ⟨j / mc.batch_max_size, List.mem_range.mpr hcilen, rfl⟩
    have hcov2 : j < j / mc.batch_max_size * mc.batch_max_size
        + (chunk_slices mc
            (net (j / mc.batch_max_size)
              (chunk_request mc (chunk_at mc.batch_max_size inputs
                (j / mc.batch_max_size))))
            (chunk_at mc.batch_max_size inputs
              (j / mc.batch_max_size)).length).length := by
      rw [chunk_slices_length, hclen]
      have hlt : j % mc.batch_max_size
          < min mc.batch_max_size
              (inputs.length - j / mc.batch_max_size * mc.batch_max_size) :=
        lt_min_iff.mpr ⟨hmodlt, by omega⟩
      omega
    have hplace := place_results_covered
      (j / mc.batch_max_size * mc.batch_max_size)
      (chunk_slices mc
        (net (j / mc.batch_max_size)
          (chunk_request mc (chunk_at mc.batch_max_size inputs
            (j / mc.batch_max_size))))
        (chunk_at mc.batch_max_size inputs (j / mc.batch_max_size)).length)
      j hstart (by simpa using hcov2) order hdisj hmem (fun _ => [])
    have hjlen : j < (infer_out inputs order).length := by
      simpa [infer_out] using hj
    rw [List.getElem?_eq_getElem hjlen]
    have hval : (infer_out inputs order)[j] = place_results order j := by
      simp [infer_out]
    rw [hval]
    unfold place_results
    rw [hplace]
    have hgd : j - j / mc.batch_max_size * mc.batch_max_size
        = j % mc.batch_max_size := by omega
    rw [hgd]
    have hsl := chunk_slices_getElem mc
      (net (j / mc.batch_max_size)
        (chunk_request mc (chunk_at mc.batch_max_size inputs
          (j / mc.batch_max_size))))
      (chunk_at mc.batch_max_size inputs (j / mc.batch_max_size)).length
      (j % mc.batch_max_size) (by rw [hclen]; exact lt_min_iff.mpr ⟨hmodlt, by omega⟩)
    rw [List.getD_eq_getElem?_getD, hsl]
    rfl

/-- C2 witness at three inputs and batches of at most two, with the
completed batches placed in their submission order. -/
theorem C2_infer_batch_order_witness :
    1 ≤ witness_model_config.batch_max_size ∧
    (infer_batches witness_model_config witness_net witness_inputs).Perm
      (infer_batches witness_model_config witness_net witness_inputs) ∧
    ((infer_out witness_inputs
        (infer_batches witness_model_config witness_net
          witness_inputs)).length = witness_inputs.length ∧
    (∀ ci : Nat,
      chunk_at witness_model_config.batch_max_size witness_inputs ci
        = (witness_inputs.drop
            (ci * witness_model_config.batch_max_size)).take
            witness_model_config.batch_max_size ∧
      (chunk_at witness_model_config.batch_max_size witness_inputs
          ci).length ≤ witness_model_config.batch_max_size ∧
      (chunk_request witness_model_config
          (chunk_at witness_model_config.batch_max_size witness_inputs
            ci)).shape
        = ((chunk_at witness_model_config.batch_max_size witness_inputs
            ci).length : Int) :: witness_model_config.input_shape ∧
      (chunk_request witness_model_config
          (chunk_at witness_model_config.batch_max_size witness_inputs
            ci)).raw_input
        = (chunk_at witness_model_config.batch_max_size witness_inputs
            ci).flatten) ∧
    (∀ j, j < witness_inputs.length →
      (infer_out witness_inputs
          (infer_batches witness_model_config witness_net
            witness_inputs))[j]?
        = some (((witness_net (j / witness_model_config.batch_max_size)
            (chunk_request witness_model_config
              (chunk_at witness_model_config.batch_max_size witness_inputs
                (j / witness_model_config.batch_max_size)))).drop
            ((j % witness_model_config.batch_max_size)
              * output_size_per_sample witness_model_config)).take
            (output_size_per_sample witness_model_config)))) :=
  ⟨by decide, List.Perm.refl _,
    C2_infer_batch_order witness_model_config (by decide) witness_net
      witness_inputs
      (infer_batches witness_model_config witness_net witness_inputs)
      (List.Perm.refl _)⟩
